import Mathlib

/-!
# Verification of the trading-backend decision engine

Shallow embedding of the repository's core trading logic:

* `src/types/index.ts` (named constants) and the indicator utilities
  (`calculateSMA` / `calculateRSI` / `calculateEMA` / `calculateMACD`),
* `src/services/aiService.ts` (warmup gate of `analyzeAndDecide`,
  `letAIPickBest`, `parseAIResponse`),
* `src/tradingEngine/PaperExecutioner.ts` (`executeTrade`, `buy`, `sell`,
  `monitorPositions`, `updateTrailingHighs`, `updatePrices`,
  `getTotalEquity`).

Modelling conventions:

* JavaScript `number` is modelled by `ℚ`; every arithmetic step of the
  source is mirrored exactly on rationals.  Non-finite values (NaN /
  Infinity) have no counterpart in `ℚ`; where the source guards against
  them (`isFinite` checks in `sell`) the guard is modelled on its
  representable part.  In `ℚ`, `x / 0 = 0`; the source would produce
  `Infinity`/`NaN` there, and no theorem below depends on a division by
  zero.
* `Map<string, T>` is modelled by an insertion-ordered association list
  (`List`) with `find?` / in-place replace / delete, which is the exact
  observable behaviour of a JS `Map`.
* Log strings are not modelled.  The `reason` field of a monitor action
  is modelled by the decision-relevant data that the source interpolates
  into the string (which exit fired, the next DCA level and multiplier).
* `Date.now()` is passed explicitly as a `now : ℤ` parameter (epoch ms);
  the handful of `Date.now()` calls inside one `executeTrade` invocation
  are modelled as the same instant.
* Trade ids `T${++tradeCounter}` are modelled by the counter value.
-/

set_option autoImplicit false

namespace TradingBackend

/-- Trade / signal direction, `'BUY' | 'SELL' | 'HOLD'` in the source.
(`Trade.action` only ever holds `BUY` or `SELL`.) -/
inductive Action where
  | BUY
  | SELL
  | HOLD
  deriving DecidableEq, Repr

/-- `MarketData` from `src/types/index.ts`. -/
structure MarketData where
  token : String
  price : ℚ
  change24h : ℚ
  timestamp : ℤ
  deriving DecidableEq, Repr

/-- `AISignal` from `src/types/index.ts`. -/
structure AISignal where
  token : String
  action : Action
  confidence : ℚ
  reason : String
  deriving DecidableEq, Repr

/-- `Trade` from `src/types/index.ts`; the id string `T${n}` is modelled
by the counter value `n`. -/
structure Trade where
  id : ℕ
  timestamp : ℤ
  token : String
  action : Action
  amount : ℚ
  price : ℚ
  fee : ℚ
  total : ℚ
  deriving DecidableEq, Repr

/-- `Position` from `src/types/index.ts`. -/
structure Position where
  token : String
  amount : ℚ
  avgBuyPrice : ℚ
  currentPrice : ℚ
  pnl : ℚ
  pnlPercentage : ℚ
  dcaLevel : ℕ
  initialBuyPrice : ℚ
  highestPrice : ℚ
  totalCost : ℚ
  deriving DecidableEq, Repr

/-! ## Indicator utilities (`src/utils/indicators.ts`, bundled in
`src/types/index.ts` in this snapshot) -/

/-- `MACDResult`. -/
structure MACDResult where
  macd : ℚ
  signal : ℚ
  histogram : ℚ
  deriving DecidableEq, Repr

/-- `calculateEMA(prices, period)`: `null` on empty input, non-positive
period, or fewer than `period` samples; otherwise seeds with the simple
average of the first `period` prices and folds the standard recursive
smoothing over the remaining prices. -/
def calculateEMA (prices : List ℚ) (period : ℕ) : Option ℚ :=
  if prices.length = 0 ∨ period = 0 then none
  else if prices.length < period then none
  else
    let multiplier : ℚ := 2 / (period + 1)
    let seed : ℚ := (prices.take period).sum / period
    some ((prices.drop period).foldl (fun ema p => (p - ema) * multiplier + ema) seed)

/-- The `macdLineValues` loop of `calculateMACD`: for each prefix length
`i` from `slowPeriod = 26` up to `prices.length` (inclusive), the
difference `fastEMA − slowEMA` over `prices.slice(0, i)`, kept only when
both EMAs are non-null (exactly the source's `if (fastEMA !== null &&
slowEMA !== null)` push). -/
def macdLine (prices : List ℚ) : List ℚ :=
  (List.range' 26 (prices.length + 1 - 26)).filterMap (fun i =>
    match calculateEMA (prices.take i) 12, calculateEMA (prices.take i) 26 with
    | some f, some s => some (f - s)
    | _, _ => none)

/-- `calculateMACD(prices)` with the standard periods 12 / 26 / 9:
`null` on empty input or fewer than `26 + 9 − 1` samples; otherwise the
MACD line series over growing prefixes, its last value, and a 9-period
EMA signal line. -/
def calculateMACD (prices : List ℚ) : Option MACDResult :=
  if prices.length = 0 then none
  else if prices.length < 26 + 9 - 1 then none
  else
    let ml := macdLine prices
    if ml.length < 9 then none
    else
      match calculateEMA ml 9 with
      | none => none
      | some sig =>
          let macd := ml.getD (ml.length - 1) 0
          some ⟨macd, sig, macd - sig⟩

/-! ### Helper lemmas for the indicator layer -/

lemma length_filterMap_of_isSome {α β : Type} (f : α → Option β) :
    ∀ l : List α, (∀ a ∈ l, (f a).isSome) → (l.filterMap f).length = l.length := by
  intro l
  induction l with
  | nil => intro _; simp
  | cons a t ih =>
      intro h
      have ha : (f a).isSome := h a (List.mem_cons_self a t)
      obtain ⟨b, hb⟩ := Option.isSome_iff_exists.mp ha
      have ht : ∀ x ∈ t, (f x).isSome := fun x hx => h x (List.mem_cons_of_mem a hx)
      simp [List.filterMap_cons, hb, ih ht]

lemma calculateEMA_isSome {l : List ℚ} {p : ℕ} (hp : p ≠ 0) (hpl : p ≤ l.length) :
    ∃ x, calculateEMA l p = some x := by
  have hlen : l.length ≠ 0 := by omega
  rw [← Option.isSome_iff_exists]
  unfold calculateEMA
  rw [if_neg (by omega), if_neg (by omega)]
  rfl

lemma macdLine_length {prices : List ℚ} (h : 26 ≤ prices.length) :
    (macdLine prices).length = prices.length + 1 - 26 := by
  unfold macdLine
  rw [length_filterMap_of_isSome]
  · simp
  · intro i hi
    have hmem := List.mem_range'_1.mp hi
    have h26 : 26 ≤ i := hmem.1
    have hle : i ≤ prices.length := by omega
    have htake : (prices.take i).length = i := by
      simp [List.length_take]; omega
    obtain ⟨f, hf⟩ := calculateEMA_isSome (l := prices.take i) (p := 12)
      (by omega) (by omega)
    obtain ⟨s, hs⟩ := calculateEMA_isSome (l := prices.take i) (p := 26)
      (by omega) (by omega)
    simp [hf, hs]

/-- C8: `calculateMACD` returns `null` for every history of fewer than
`26 + 9 − 1 = 34` samples, and a non-null `{macd, signal, histogram}`
record for every history of at least 34 samples. -/
theorem C8_macd_none_iff_short (prices : List ℚ) :
    (prices.length < 34 → calculateMACD prices = none) ∧
    (34 ≤ prices.length → ∃ r, calculateMACD prices = some r) := by
  constructor
  · intro hshort
    unfold calculateMACD
    by_cases h0 : prices.length = 0
    · rw [if_pos h0]
    · rw [if_neg h0, if_pos (by omega)]
  · intro hlong
    have hml : (macdLine prices).length = prices.length + 1 - 26 :=
      macdLine_length (by omega)
    obtain ⟨sig, hsig⟩ := calculateEMA_isSome (l := macdLine prices) (p := 9)
      (by omega) (by omega)
    rw [← Option.isSome_iff_exists]
    unfold calculateMACD
    rw [if_neg (by omega), if_neg (by omega)]
    simp only [hml]
    rw [if_neg (by omega), hsig]
    rfl

/-- Witness for C8: a 10-sample history yields `null`, a 34-sample
history yields a non-null result. -/
theorem C8_witness :
    calculateMACD (List.replicate 10 (1 : ℚ)) = none ∧
    ∃ r, calculateMACD (List.replicate 34 (1 : ℚ)) = some r :=
  ⟨(C8_macd_none_iff_short (List.replicate 10 (1 : ℚ))).1 (by decide),
   (C8_macd_none_iff_short (List.replicate 34 (1 : ℚ))).2 (by decide)⟩

/-! ## `src/services/aiService.ts` -/

/-- `TRADING_RULES.WARMUP_PERIOD`. -/
def WARMUP_PERIOD : ℕ := 20

/-- `MAX_HISTORY` of `AIService`. -/
def MAX_HISTORY : ℕ := 50

/-- The internal `TradingSignal` of `aiService.ts`, restricted to the
fields `letAIPickBest` / `parseAIResponse` read (`token`, `action`,
`strength`, `reasons`); the per-signal reasons list is modelled by its
joined string, and the `indicators` / `position` / `newsSentiment`
payload, which those functions never touch, is omitted. -/
structure TradingSignal where
  token : String
  action : Action
  strength : ℚ
  reasonsJoined : String
  deriving DecidableEq, Repr

/-- Association-list lookup for the `priceHistory` map (`Map.get`,
`undefined` as `none`). -/
def getHist (h : List (String × List ℚ)) (tok : String) : List ℚ :=
  (((h.find? (fun e => e.1 = tok)).map (fun e => e.2)).getD [])

/-- Association-list write for a JS `Map.set`: replace in place when the
key exists, append otherwise. -/
def setHist (h : List (String × List ℚ)) (tok : String) (v : List ℚ) :
    List (String × List ℚ) :=
  match h with
  | [] => [(tok, v)]
  | e :: rest => if e.1 = tok then (tok, v) :: rest else e :: setHist rest tok v

/-- The history-update loop opening `analyzeAndDecide`: for each market
sample, push its price onto that token's history and `shift` the oldest
entry once the length exceeds `MAX_HISTORY`. -/
def updateHistories (h : List (String × List ℚ)) (md : List MarketData) :
    List (String × List ℚ) :=
  md.foldl (fun acc d =>
    let hist := getHist acc d.token ++ [d.price]
    setHist acc d.token (if MAX_HISTORY < hist.length then hist.drop 1 else hist)) h

/-- The warmup average of `analyzeAndDecide`: total data points over all
stored histories, divided by the number of market samples in this tick
(`0` when the tick is empty). -/
def avgDataPoints (h : List (String × List ℚ)) (md : List MarketData) : ℚ :=
  if md.length ≠ 0 then
    ((h.map (fun e => e.2.length)).sum : ℕ) / (md.length : ℚ)
  else 0

/-- The synthetic warmup signal returned by `analyzeAndDecide` below the
warmup period (the interpolated progress counter in the reason string is
not modelled). -/
def warmupSignal : AISignal :=
  { token := "SYSTEM", action := Action.HOLD, confidence := 0,
    reason := "Collecting market data (Warmup)..." }

/-- `analyzeAndDecide(marketData, positions)`, lines 90–116: update the
per-token histories, then return the synthetic warmup `HOLD` whenever
the average data-point count is below `WARMUP_PERIOD`.  Everything after
the warmup gate (news refresh, rule-based signal generation, arbitration)
is abstracted as the continuation `rest`, over which the warmup theorem
quantifies universally — so the gate is verified against *every* possible
downstream behaviour, including the real one. -/
def analyzeAndDecide (h : List (String × List ℚ)) (md : List MarketData)
    (rest : List (String × List ℚ) → Option AISignal) : Option AISignal :=
  let h' := updateHistories h md
  if avgDataPoints h' md < (WARMUP_PERIOD : ℚ) then some warmupSignal
  else rest h'

/-- A parsed advisory JSON object: `{token?, action?, confidence?,
reason?}`, each field possibly absent (`undefined`). The numeric
confidence the advisory supplies is never read by the source, so it is
omitted here. -/
structure ParsedResp where
  token : Option String
  action : Option String
  reason : Option String
  deriving DecidableEq, Repr

/-- Outcome of the advisory transport in `letAIPickBest`:
`none` = fetch threw or `!response.ok`; `some none` = body that
`JSON.parse` rejects; `some (some r)` = parsed object `r`. -/
def AdvisoryOutcome : Type := Option (Option ParsedResp)

/-- String rendering of an action, as compared against
`parsed.action?.toUpperCase()`. -/
def actionToString : Action → String
  | Action.BUY => "BUY"
  | Action.SELL => "SELL"
  | Action.HOLD => "HOLD"

/-- `parseAIResponse(response, validSignals)`: `null` unless the
(uppercased) returned token names one of the candidates; if the returned
action differs from that candidate's rule action, fall back to the
candidate's own action, strength and reasons; otherwise return the
candidate's action (the source returns the equal uppercased string) with
the candidate's rule strength and the advisory's reason if present.
The source's separate `validTokens.includes` pre-check is subsumed by
`find?` returning `none`. -/
def parseAIResponse (r : ParsedResp) (validSignals : List TradingSignal) :
    Option AISignal :=
  match r.token.map String.toUpper with
  | none => none
  | some up =>
    match validSignals.find? (fun s => s.token = up) with
    | none => none
    | some matchingSignal =>
      if r.action.map String.toUpper ≠ some (actionToString matchingSignal.action) then
        some { token := matchingSignal.token, action := matchingSignal.action,
               confidence := matchingSignal.strength,
               reason := matchingSignal.reasonsJoined }
      else
        some { token := up, action := matchingSignal.action,
               confidence := matchingSignal.strength,
               reason := r.reason.getD matchingSignal.reasonsJoined }

/-- The deterministic fallback of `letAIPickBest`:
`signals.sort((a, b) => b.strength - a.strength)[0]` — the first
candidate of maximal strength (JS `Array.sort` is stable, so among equal
strengths the earliest stays first). -/
def pickBest (signals : List TradingSignal) : Option TradingSignal :=
  signals.foldl (fun acc s =>
    match acc with
    | none => some s
    | some b => if b.strength < s.strength then some s else some b) none

/-- The `AISignal` built from a fallback candidate. -/
def fallbackSignal (s : TradingSignal) : AISignal :=
  { token := s.token, action := s.action, confidence := s.strength,
    reason := s.reasonsJoined }

/-- `letAIPickBest(signals)` with the transport outcome made explicit:
on transport failure, unparseable body, or a `parseAIResponse` rejection,
fall back to the highest-strength candidate; otherwise return the parsed
(rule-validated) signal. -/
def letAIPickBest (outcome : Option (Option ParsedResp))
    (signals : List TradingSignal) : Option AISignal :=
  match outcome with
  | none => (pickBest signals).map fallbackSignal
  | some none => (pickBest signals).map fallbackSignal
  | some (some r) =>
    match parseAIResponse r signals with
    | some sig => some sig
    | none => (pickBest signals).map fallbackSignal

/-! ### Helper lemmas for the arbiter -/

lemma pickBest_mem : ∀ (l : List TradingSignal) (acc : TradingSignal),
    ∃ b, (l.foldl (fun acc s =>
      match acc with
      | none => some s
      | some b => if b.strength < s.strength then some s else some b) (some acc)) = some b ∧
      (b ∈ l ∨ b = acc) := by
  intro l
  induction l with
  | nil => intro acc; exact ⟨acc, rfl, Or.inr rfl⟩
  | cons s t ih =>
      intro acc
      simp only [List.foldl_cons]
      by_cases h : acc.strength < s.strength
      · rw [if_pos h]
        obtain ⟨b, hb, hmem⟩ := ih s
        refine ⟨b, hb, ?_⟩
        rcases hmem with h1 | h1
        · exact Or.inl (List.mem_cons_of_mem s h1)
        · exact Or.inl (h1 ▸ List.mem_cons_self s t)
      · rw [if_neg h]
        obtain ⟨b, hb, hmem⟩ := ih acc
        refine ⟨b, hb, ?_⟩
        rcases hmem with h1 | h1
        · exact Or.inl (List.mem_cons_of_mem s h1)
        · exact Or.inr h1

lemma pickBest_some_mem {signals : List TradingSignal} (h : signals ≠ []) :
    ∃ b, pickBest signals = some b ∧ b ∈ signals := by
  cases signals with
  | nil => exact absurd rfl h
  | cons s t =>
      unfold pickBest
      simp only [List.foldl_cons]
      obtain ⟨b, hb, hmem⟩ := pickBest_mem t s
      refine ⟨b, hb, ?_⟩
      rcases hmem with h1 | h1
      · exact List.mem_cons_of_mem s h1
      · exact h1 ▸ List.mem_cons_self s t

lemma parseAIResponse_spec {r : ParsedResp} {signals : List TradingSignal}
    {a : AISignal} (h : parseAIResponse r signals = some a) :
    ∃ s ∈ signals, a.token = s.token ∧ a.action = s.action ∧
      a.confidence = s.strength := by
  unfold parseAIResponse at h
  cases htok : r.token.map String.toUpper with
  | none => rw [htok] at h; exact absurd h (by simp)
  | some up =>
      rw [htok] at h
      dsimp only at h
      cases hfind : signals.find? (fun s => s.token = up) with
      | none => rw [hfind] at h; exact absurd h (by simp)
      | some m =>
          rw [hfind] at h
          dsimp only at h
          have hm : m ∈ signals := List.mem_of_find?_eq_some hfind
          have hup : m.token = up := by simpa using List.find?_some hfind
          by_cases hact : r.action.map String.toUpper = some (actionToString m.action)
          · rw [if_neg (not_not_intro hact)] at h
            obtain rfl := Option.some.inj h
            exact ⟨m, hm, hup.symm, rfl, rfl⟩
          · rw [if_pos hact] at h
            obtain rfl := Option.some.inj h
            exact ⟨m, hm, rfl, rfl, rfl⟩

/-- C4: for every advisory outcome (transport failure, unparseable body,
or any parsed object) and every non-empty candidate list, the arbitration
step returns a signal whose token names a candidate and whose action and
confidence are exactly that candidate's rule-determined action and
rule-computed strength; and on transport failure or an unparseable body
the result is precisely the deterministic highest-strength fallback. -/
theorem C4_arbiter_rule_action (outcome : Option (Option ParsedResp))
    (signals : List TradingSignal) (hne : signals ≠ []) :
    (∃ a, letAIPickBest outcome signals = some a ∧
      ∃ s ∈ signals, a.token = s.token ∧ a.action = s.action ∧
        a.confidence = s.strength) ∧
    (outcome = none ∨ outcome = some none →
      letAIPickBest outcome signals = (pickBest signals).map fallbackSignal) := by
  obtain ⟨b, hb, hbmem⟩ := pickBest_some_mem hne
  constructor
  · rcases outcome with _ | outcome2
    · exact ⟨fallbackSignal b, by simp [letAIPickBest, hb], b, hbmem, rfl, rfl, rfl⟩
    · rcases outcome2 with _ | r
      · exact ⟨fallbackSignal b, by simp [letAIPickBest, hb], b, hbmem, rfl, rfl, rfl⟩
      · cases hparse : parseAIResponse r signals with
        | none =>
            refine ⟨fallbackSignal b, ?_, b, hbmem, rfl, rfl, rfl⟩
            simp [letAIPickBest, hparse, hb]
        | some sig =>
            refine ⟨sig, ?_, parseAIResponse_spec hparse⟩
            simp [letAIPickBest, hparse]
  · rintro (rfl | rfl) <;> rfl

/-- Witness for C4: a concrete malformed advisory reply (action field
absent) against two concrete candidates; the arbiter returns the
rule-determined action and strength of one of them. -/
theorem C4_witness :
    (∃ a, letAIPickBest
        (some (some { token := some "wif", action := none, reason := none }))
        [ { token := "WIF", action := Action.BUY, strength := 75,
            reasonsJoined := "RSI oversold" },
          { token := "SOL", action := Action.SELL, strength := 60,
            reasonsJoined := "MACD bearish crossover" } ] = some a ∧
      ∃ s ∈ [ ( { token := "WIF", action := Action.BUY, strength := 75,
                  reasonsJoined := "RSI oversold" } : TradingSignal),
              { token := "SOL", action := Action.SELL, strength := 60,
                reasonsJoined := "MACD bearish crossover" } ],
        a.token = s.token ∧ a.action = s.action ∧ a.confidence = s.strength) :=
  (C4_arbiter_rule_action _ _ (by simp)).1

/-- C5: whenever the average per-symbol data-point count after this
tick's history update is below the warmup period of 20, `analyzeAndDecide`
returns the synthetic `HOLD` signal with confidence 0 — regardless of the
market data and of whatever the post-warmup pipeline (`rest`) would have
produced. -/
theorem C5_warmup_hold (h : List (String × List ℚ)) (md : List MarketData)
    (rest : List (String × List ℚ) → Option AISignal)
    (hwarm : avgDataPoints (updateHistories h md) md < (WARMUP_PERIOD : ℚ)) :
    analyzeAndDecide h md rest = some warmupSignal ∧
    warmupSignal.action = Action.HOLD ∧ warmupSignal.confidence = 0 := by
  refine ⟨?_, rfl, rfl⟩
  unfold analyzeAndDecide
  rw [if_pos hwarm]

/-- Witness for C5: one fresh token with a single sample averages 1 < 20,
so the tick returns the warmup `HOLD` whatever the continuation does. -/
theorem C5_witness :
    analyzeAndDecide [] [{ token := "SOL", price := 1, change24h := 0, timestamp := 0 }]
      (fun _ => some { token := "SOL", action := Action.BUY, confidence := 99,
                       reason := "ghost" }) = some warmupSignal ∧
    warmupSignal.action = Action.HOLD ∧ warmupSignal.confidence = 0 :=
  C5_warmup_hold _ _ _ (by
    norm_num [updateHistories, avgDataPoints, getHist, setHist, MAX_HISTORY,
      WARMUP_PERIOD])

/-! ## `src/tradingEngine/PaperExecutioner.ts` -/

/-- `INITIAL_BALANCE` (`src/types/index.ts`). -/
def INITIAL_BALANCE : ℚ := 10

/-- `FEE_PERCENTAGE` (`src/types/index.ts`), 0.1%.  The executioner
functions below take the fee rate as an explicit parameter (the spec
lists it as a configurable policy constant); every claim about the
program as shipped instantiates it with `FEE_PERCENTAGE`. -/
def FEE_PERCENTAGE : ℚ := 1 / 1000

/-- `TRADING_CONFIG.MIN_CASH_RESERVE`. -/
def MIN_CASH_RESERVE : ℚ := 20 / 100

/-- `TRADING_CONFIG.MAX_POSITION_PERCENT`. -/
def MAX_POSITION_PERCENT : ℚ := 30 / 100

/-- `TRADING_CONFIG.BUY_PERCENT`. -/
def BUY_PERCENT : ℚ := 15 / 100

/-- `TRADING_CONFIG.MIN_TRADE_AMOUNT`. -/
def MIN_TRADE_AMOUNT : ℚ := 5 / 100

/-- `TRADING_CONFIG.TRADE_COOLDOWN_MS`. -/
def TRADE_COOLDOWN_MS : ℤ := 60000

/-- `TRADING_CONFIG.DCA_ZONES`. -/
def DCA_ZONES : List ℚ := [-2/100, -5/100, -10/100]

/-- `TRADING_CONFIG.DCA_MULTIPLIERS`. -/
def DCA_MULTIPLIERS : List ℚ := [1, 15/10, 2]

/-- `TRADING_CONFIG.TRAILING_STOP_ACTIVATION`. -/
def TRAILING_STOP_ACTIVATION : ℚ := 15 / 1000

/-- `TRADING_CONFIG.TRAILING_STOP_CALLBACK`. -/
def TRAILING_STOP_CALLBACK : ℚ := 5 / 1000

/-- `TRADING_CONFIG.HARD_STOP_LOSS`. -/
def HARD_STOP_LOSS : ℚ := -15 / 100

/-- The mutable fields of a `PaperExecutioner` instance.  The position
and cooldown `Map`s are modelled as insertion-ordered association
lists. -/
structure PaperState where
  cashBalance : ℚ
  positions : List Position
  trades : List Trade
  tradeCounter : ℕ
  lastTradeTime : List (String × ℤ)
  deriving DecidableEq, Repr

/-- The fresh state a `PaperExecutioner` starts from when nothing was
persisted. -/
def initPaperState : PaperState :=
  { cashBalance := INITIAL_BALANCE, positions := [], trades := [],
    tradeCounter := 0, lastTradeTime := [] }

/-- `this.positions.get(token)`. -/
def findPos (ps : List Position) (tok : String) : Option Position :=
  ps.find? (fun p => p.token = tok)

/-- `this.positions.set(p.token, p)`: replace in place when the token is
present, append otherwise. -/
def setPos : List Position → Position → List Position
  | [], p => [p]
  | q :: rest, p => if q.token = p.token then p :: rest else q :: setPos rest p

/-- `this.positions.delete(token)`. -/
def delPos (ps : List Position) (tok : String) : List Position :=
  ps.filter (fun p => decide (p.token ≠ tok))

/-- `this.lastTradeTime.get(token) || 0`. -/
def getLastTime (l : List (String × ℤ)) (tok : String) : ℤ :=
  (((l.find? (fun e => e.1 = tok)).map (fun e => e.2)).getD 0)

/-- `this.lastTradeTime.set(token, now)`. -/
def setLastTime : List (String × ℤ) → String → ℤ → List (String × ℤ)
  | [], tok, t => [(tok, t)]
  | e :: rest, tok, t => if e.1 = tok then (tok, t) :: rest else e :: setLastTime rest tok t

/-- `getTotalEquity()` (lines 366–372): cash plus the mark-to-market
value of every open position. -/
def getTotalEquity (s : PaperState) : ℚ :=
  s.cashBalance + (s.positions.map (fun p => p.amount * p.currentPrice)).sum

/-- The local `availableCash` of `buy` (line 240): cash minus the 20%
equity reserve. -/
def availableCash (s : PaperState) : ℚ :=
  s.cashBalance - getTotalEquity s * MIN_CASH_RESERVE

/-- The DCA sizing of `buy` (lines 257–267): the estimated original
entry size times the multiplier for the current DCA level, capped to 80%
of available cash when it exceeds it.  For `dcaLevel ≥
DCA_MULTIPLIERS.length` the source indexes past the array and its
arithmetic degenerates to NaN — a state unreachable through the engine
(the monitor only proposes DCA while `dcaLevel < DCA_ZONES.length`);
here the out-of-range read is the default `0`, making the investment `0`,
which the min-trade-size check rejects. -/
def dcaInvestment (avail : ℚ) (ex : Position) : ℚ :=
  let dcaMultiplier := DCA_MULTIPLIERS.getD ex.dcaLevel 0
  let estimatedOriginalSize := ex.totalCost / ((ex.dcaLevel : ℚ) + 1)
  let raw := estimatedOriginalSize * dcaMultiplier
  if avail < raw then avail * (80 / 100) else raw

/-- The committing tail of `buy` (lines 291–360), shared by the two
sizing branches of the source: reject below the minimum trade size,
otherwise compute fee / net amount / token amount, debit the cash,
create or DCA-update the position, stamp the cooldown and prepend the
trade record. -/
def buyCommit (fee : ℚ) (s : PaperState) (token : String) (price : ℚ)
    (now : ℤ) (investmentAmount : ℚ) (existing : Option Position) :
    Option Trade × PaperState :=
  if investmentAmount < MIN_TRADE_AMOUNT then (none, s)
  else
    let tradeFee := investmentAmount * fee
    let netAmount := investmentAmount - tradeFee
    let tokenAmount := netAmount / price
    let positions' :=
      match existing with
      | some ex =>
          setPos s.positions
            { ex with
              amount := ex.amount + tokenAmount,
              totalCost := ex.totalCost + netAmount,
              avgBuyPrice := (ex.totalCost + netAmount) / (ex.amount + tokenAmount),
              currentPrice := price,
              dcaLevel := ex.dcaLevel + 1 }
      | none =>
          setPos s.positions
            { token := token, amount := tokenAmount, avgBuyPrice := price,
              currentPrice := price, pnl := 0, pnlPercentage := 0,
              dcaLevel := 0, initialBuyPrice := price, highestPrice := price,
              totalCost := netAmount }
    let trade : Trade :=
      { id := s.tradeCounter + 1, timestamp := now, token := token,
        action := Action.BUY, amount := tokenAmount, price := price,
        fee := tradeFee, total := investmentAmount }
    (some trade,
      { cashBalance := s.cashBalance - investmentAmount,
        positions := positions',
        trades := trade :: s.trades,
        tradeCounter := s.tradeCounter + 1,
        lastTradeTime := setLastTime s.lastTradeTime token now })

/-- `buy(token, price)` (lines 238–361): reserve check, then either the
Martingale DCA sizing (with the 2× position-share limit) on an existing
position, or the standard initial sizing `min(availableCash × 15%,
equity × 30%)` on a fresh token. -/
def buy (fee : ℚ) (s : PaperState) (token : String) (price : ℚ) (now : ℤ) :
    Option Trade × PaperState :=
  if availableCash s < MIN_TRADE_AMOUNT then (none, s)
  else
    match findPos s.positions token with
    | some ex =>
        let investmentAmount := dcaInvestment (availableCash s) ex
        if MAX_POSITION_PERCENT * 2 <
            (ex.amount * price + investmentAmount) / getTotalEquity s then (none, s)
        else buyCommit fee s token price now investmentAmount (some ex)
    | none =>
        buyCommit fee s token price now
          (min (availableCash s * BUY_PERCENT) (getTotalEquity s * MAX_POSITION_PERCENT))
          none

/-- `sell(token, price)` (lines 377–451): reject when there is no
position or its amount is not a positive (finite) number; otherwise
credit the net proceeds, stamp the cooldown, prepend the trade record
and delete the position.  The defensive `Number(...)` / `isFinite`
re-derivations in the source are identities on `ℚ`-valued fields, and
the realized-P&L metrics it computes are only logged. -/
def sell (fee : ℚ) (s : PaperState) (token : String) (price : ℚ) (now : ℤ) :
    Option Trade × PaperState :=
  match findPos s.positions token with
  | none => (none, s)
  | some position =>
      if position.amount ≤ 0 then (none, s)
      else
        let saleValue := position.amount * price
        let tradeFee := saleValue * fee
        let netProceeds := saleValue - tradeFee
        let trade : Trade :=
          { id := s.tradeCounter + 1, timestamp := now, token := token,
            action := Action.SELL, amount := position.amount, price := price,
            fee := tradeFee, total := netProceeds }
        (some trade,
          { cashBalance := s.cashBalance + netProceeds,
            positions := delPos s.positions token,
            trades := trade :: s.trades,
            tradeCounter := s.tradeCounter + 1,
            lastTradeTime := setLastTime s.lastTradeTime token now })

/-- `executeTrade(signal, currentPrice)` (lines 112–126): per-token
cooldown gate, then dispatch on the signal's action (`HOLD` falls
through to `null`). -/
def executeTrade (fee : ℚ) (s : PaperState) (signal : AISignal)
    (currentPrice : ℚ) (now : ℤ) : Option Trade × PaperState :=
  if now - getLastTime s.lastTradeTime signal.token < TRADE_COOLDOWN_MS then (none, s)
  else
    match signal.action with
    | Action.BUY => buy fee s signal.token currentPrice now
    | Action.SELL => sell fee s signal.token currentPrice now
    | Action.HOLD => (none, s)

/-- The decision-relevant content of a monitor action's `reason` string:
which exit fired, and for a DCA trigger the advanced level
(`dcaLevel + 1`) and the multiplier the log reports. -/
inductive MonitorReason where
  | trailingStop
  | dcaTrigger (nextLevel : ℕ) (multiplier : ℚ)
  | hardStop (dcaLevel : ℕ)
  deriving DecidableEq, Repr

/-- The `{token, action, reason}` record `monitorPositions` returns. -/
structure MonitorAction where
  token : String
  action : Action
  reason : MonitorReason
  deriving DecidableEq, Repr

/-- Step 1 of `monitorPositions` (lines 154–158): raise the peak tracker
when the current price exceeds it. -/
def peakUpdate (pos : Position) (price : ℚ) : Position :=
  if pos.highestPrice < price then { pos with highestPrice := price } else pos

/-- `pnlFromInitial` (line 161): fractional move from the very first
entry price. -/
def pnlFromInitial (pos : Position) (price : ℚ) : ℚ :=
  (price - pos.initialBuyPrice) / pos.initialBuyPrice

/-- `dropFromPeak` (line 162): fractional move from the tracked peak. -/
def dropFromPeak (pos : Position) (price : ℚ) : ℚ :=
  (price - pos.highestPrice) / pos.highestPrice

/-- Steps 2–4 of `monitorPositions` (lines 164–221), evaluated on the
peak-updated position: trailing stop first, then the current DCA zone,
then the hard stop-loss. -/
def monitorDecide (pos : Position) (tok : String) (price : ℚ) :
    Option MonitorAction :=
  if TRAILING_STOP_ACTIVATION * 100 < pos.pnlPercentage ∧
      dropFromPeak pos price < -TRAILING_STOP_CALLBACK then
    some ⟨tok, Action.SELL, MonitorReason.trailingStop⟩
  else if pos.dcaLevel < DCA_ZONES.length ∧
      pnlFromInitial pos price ≤ DCA_ZONES.getD pos.dcaLevel 0 then
    some ⟨tok, Action.BUY,
      MonitorReason.dcaTrigger (pos.dcaLevel + 1) (DCA_MULTIPLIERS.getD pos.dcaLevel 0)⟩
  else if pos.pnlPercentage ≤ HARD_STOP_LOSS * 100 then
    some ⟨tok, Action.SELL, MonitorReason.hardStop pos.dcaLevel⟩
  else none

/-- `monitorPositions(marketData)` (lines 146–225): walk the feed in
order; for each sample with an open position, write the peak update into
the map, then return the first triggered action, leaving later samples
unprocessed.  The action (if any) is returned together with the mutated
state. -/
def monitorPositions (s : PaperState) :
    List MarketData → Option MonitorAction × PaperState
  | [] => (none, s)
  | d :: rest =>
      match findPos s.positions d.token with
      | none => monitorPositions s rest
      | some position =>
          let position' := peakUpdate position d.price
          let s' := { s with positions := setPos s.positions position' }
          match monitorDecide position' d.token d.price with
          | some a => (some a, s')
          | none => monitorPositions s' rest

/-- One datum of `updateTrailingHighs` (lines 134–139). -/
def trailStep (s : PaperState) (d : MarketData) : PaperState :=
  match findPos s.positions d.token with
  | some pos =>
      if pos.highestPrice < d.price then
        { s with positions := setPos s.positions { pos with highestPrice := d.price } }
      else s
  | none => s

/-- `updateTrailingHighs(marketData)` (lines 132–140). -/
def updateTrailingHighs (s : PaperState) (md : List MarketData) : PaperState :=
  md.foldl trailStep s

/-- `updatePrices(token, currentPrice)` (lines 456–466).  In `ℚ`,
`pnl / 0 = 0` where the source would produce a non-finite percentage for
a zero cost basis. -/
def updatePrices (s : PaperState) (token : String) (currentPrice : ℚ) :
    PaperState :=
  match findPos s.positions token with
  | none => s
  | some position =>
      let pnl := position.amount * currentPrice - position.totalCost
      let position' : Position :=
        { position with
          currentPrice := currentPrice,
          pnl := pnl,
          pnlPercentage := pnl / position.totalCost * 100 }
      { s with positions := setPos s.positions position' }

/-- One engine-level operation on the paper-trading state, as the scan
loop in `server.ts` invokes them. -/
inductive EngineOp where
  | updPrices (token : String) (price : ℚ)
  | trailingHighs (md : List MarketData)
  | monitor (md : List MarketData)
  | execTrade (signal : AISignal) (price : ℚ) (now : ℤ)
  deriving Repr

/-- State effect of one engine operation. -/
def stepOp (fee : ℚ) (s : PaperState) : EngineOp → PaperState
  | EngineOp.updPrices tok p => updatePrices s tok p
  | EngineOp.trailingHighs md => updateTrailingHighs s md
  | EngineOp.monitor md => (monitorPositions s md).2
  | EngineOp.execTrade sig p now => (executeTrade fee s sig p now).2

/-- State after a sequence of engine operations. -/
def applyOps (fee : ℚ) (s : PaperState) (ops : List EngineOp) : PaperState :=
  ops.foldl (stepOp fee) s

/-- A sequence of `executeTrade` invocations (each `(signal, price,
now)`), returning the final state and the `(token, time)` events of the
accepted trades in call order. -/
def runTrades (fee : ℚ) : PaperState → List (AISignal × ℚ × ℤ) →
    PaperState × List (String × ℤ)
  | s, [] => (s, [])
  | s, (sig, p, t) :: rest =>
      let r := executeTrade fee s sig p t
      let out := runTrades fee r.2 rest
      match r.1 with
      | some _ => (out.1, (sig.token, t) :: out.2)
      | none => out

/-! ### Association-list and peak-update lemmas -/

lemma findPos_nil (tok : String) : findPos [] tok = none := rfl

lemma findPos_cons_self {q : Position} {rest : List Position} {tok : String}
    (h : q.token = tok) : findPos (q :: rest) tok = some q := by
  unfold findPos
  rw [List.find?_cons_of_pos]
  simp [h]

lemma findPos_cons_ne {q : Position} {rest : List Position} {tok : String}
    (h : ¬ q.token = tok) : findPos (q :: rest) tok = findPos rest tok := by
  unfold findPos
  rw [List.find?_cons_of_neg]
  simp [h]

lemma findPos_setPos_self (l : List Position) (p : Position) :
    findPos (setPos l p) p.token = some p := by
  induction l with
  | nil => exact findPos_cons_self rfl
  | cons q rest ih =>
      simp only [setPos]
      by_cases h : q.token = p.token
      · rw [if_pos h]
        exact findPos_cons_self rfl
      · rw [if_neg h, findPos_cons_ne h, ih]

lemma findPos_setPos_ne (l : List Position) (p : Position) (tok : String)
    (h : tok ≠ p.token) :
    findPos (setPos l p) tok = findPos l tok := by
  induction l with
  | nil =>
      simp only [setPos]
      rw [findPos_cons_ne (fun hc => h hc.symm)]
  | cons q rest ih =>
      simp only [setPos]
      by_cases hq : q.token = p.token
      · rw [if_pos hq, findPos_cons_ne (fun hc => h hc.symm),
          findPos_cons_ne (fun hc => h (hq.symm.trans hc).symm)]
      · rw [if_neg hq]
        by_cases hq' : q.token = tok
        · rw [findPos_cons_self hq', findPos_cons_self hq']
        · rw [findPos_cons_ne hq', findPos_cons_ne hq', ih]

lemma mem_setPos {l : List Position} {p q : Position} (h : q ∈ setPos l p) :
    q = p ∨ q ∈ l := by
  induction l with
  | nil => simpa [setPos] using h
  | cons r rest ih =>
      simp only [setPos] at h
      by_cases hr : r.token = p.token
      · rw [if_pos hr] at h
        rcases List.mem_cons.mp h with h1 | h1
        · exact Or.inl h1
        · exact Or.inr (List.mem_cons_of_mem r h1)
      · rw [if_neg hr] at h
        rcases List.mem_cons.mp h with h1 | h1
        · exact Or.inr (h1 ▸ List.mem_cons_self r rest)
        · rcases ih h1 with h2 | h2
          · exact Or.inl h2
          · exact Or.inr (List.mem_cons_of_mem r h2)

lemma findPos_mem {l : List Position} {tok : String} {p : Position}
    (h : findPos l tok = some p) : p ∈ l :=
  List.mem_of_find?_eq_some h

lemma findPos_token {l : List Position} {tok : String} {p : Position}
    (h : findPos l tok = some p) : p.token = tok := by
  simpa using List.find?_some h

lemma findPos_delPos_self (l : List Position) (tok : String) :
    findPos (delPos l tok) tok = none := by
  rw [findPos, List.find?_eq_none]
  intro p hp
  have := (List.mem_filter.mp hp).2
  simpa using this

lemma findPos_delPos_ne (l : List Position) (tok tok' : String)
    (h : tok' ≠ tok) :
    findPos (delPos l tok) tok' = findPos l tok' := by
  induction l with
  | nil => rfl
  | cons q rest ih =>
      simp only [delPos, List.filter_cons] at ih ⊢
      by_cases h1 : q.token = tok
      · rw [if_neg (by simp [h1]), ih,
          findPos_cons_ne (fun hc => h (h1.symm.trans hc).symm)]
      · rw [if_pos (by simp [h1])]
        by_cases h2 : q.token = tok'
        · rw [findPos_cons_self h2, findPos_cons_self h2]
        · rw [findPos_cons_ne h2, findPos_cons_ne h2, ih]

lemma getLastTime_nil (tok : String) : getLastTime [] tok = 0 := rfl

lemma getLastTime_cons_self {e : String × ℤ} {rest : List (String × ℤ)}
    {tok : String} (h : e.1 = tok) : getLastTime (e :: rest) tok = e.2 := by
  unfold getLastTime
  rw [List.find?_cons_of_pos]
  · rfl
  · simp [h]

lemma getLastTime_cons_ne {e : String × ℤ} {rest : List (String × ℤ)}
    {tok : String} (h : ¬ e.1 = tok) :
    getLastTime (e :: rest) tok = getLastTime rest tok := by
  unfold getLastTime
  rw [List.find?_cons_of_neg]
  simp [h]

lemma getLastTime_set_self (l : List (String × ℤ)) (tok : String) (t : ℤ) :
    getLastTime (setLastTime l tok t) tok = t := by
  induction l with
  | nil => exact getLastTime_cons_self rfl
  | cons e rest ih =>
      simp only [setLastTime]
      by_cases h : e.1 = tok
      · rw [if_pos h]
        exact getLastTime_cons_self rfl
      · rw [if_neg h, getLastTime_cons_ne h, ih]

lemma getLastTime_set_ne (l : List (String × ℤ)) (tok tok' : String) (t : ℤ)
    (h : tok' ≠ tok) :
    getLastTime (setLastTime l tok t) tok' = getLastTime l tok' := by
  induction l with
  | nil =>
      simp only [setLastTime]
      rw [getLastTime_cons_ne (fun hc => h hc.symm)]
  | cons e rest ih =>
      simp only [setLastTime]
      by_cases h1 : e.1 = tok
      · rw [if_pos h1, getLastTime_cons_ne (fun hc => h hc.symm),
          getLastTime_cons_ne (fun hc => h (h1.symm.trans hc).symm)]
      · rw [if_neg h1]
        by_cases h2 : e.1 = tok'
        · rw [getLastTime_cons_self h2, getLastTime_cons_self h2]
        · rw [getLastTime_cons_ne h2, getLastTime_cons_ne h2, ih]

lemma peakUpdate_token (pos : Position) (price : ℚ) :
    (peakUpdate pos price).token = pos.token := by
  unfold peakUpdate; split_ifs <;> rfl

lemma peakUpdate_pnlPercentage (pos : Position) (price : ℚ) :
    (peakUpdate pos price).pnlPercentage = pos.pnlPercentage := by
  unfold peakUpdate; split_ifs <;> rfl

lemma peakUpdate_initialBuyPrice (pos : Position) (price : ℚ) :
    (peakUpdate pos price).initialBuyPrice = pos.initialBuyPrice := by
  unfold peakUpdate; split_ifs <;> rfl

lemma peakUpdate_dcaLevel (pos : Position) (price : ℚ) :
    (peakUpdate pos price).dcaLevel = pos.dcaLevel := by
  unfold peakUpdate; split_ifs <;> rfl

lemma peakUpdate_highestPrice_ge (pos : Position) (price : ℚ) :
    pos.highestPrice ≤ (peakUpdate pos price).highestPrice := by
  unfold peakUpdate
  split_ifs with h
  · exact le_of_lt h
  · exact le_refl _

lemma peakUpdate_price_le (pos : Position) (price : ℚ) :
    price ≤ (peakUpdate pos price).highestPrice := by
  unfold peakUpdate
  split_ifs with h
  · exact le_refl _
  · exact le_of_not_lt h

lemma pnlFromInitial_peakUpdate (pos : Position) (price price' : ℚ) :
    pnlFromInitial (peakUpdate pos price) price' = pnlFromInitial pos price' := by
  unfold peakUpdate pnlFromInitial; split_ifs <;> rfl

/-! ### Case analyses for the trade entry points -/

lemma buyCommit_cases (fee : ℚ) (s : PaperState) (tok : String) (p : ℚ)
    (now : ℤ) (inv : ℚ) (ex : Option Position) :
    buyCommit fee s tok p now inv ex = (none, s) ∨
    ∃ tr st, buyCommit fee s tok p now inv ex = (some tr, st) ∧
      st.lastTradeTime = setLastTime s.lastTradeTime tok now := by
  unfold buyCommit
  split_ifs
  · exact Or.inl rfl
  · exact Or.inr ⟨_, _, rfl, rfl⟩

lemma buy_cases (fee : ℚ) (s : PaperState) (tok : String) (p : ℚ) (now : ℤ) :
    buy fee s tok p now = (none, s) ∨
    ∃ tr st, buy fee s tok p now = (some tr, st) ∧
      st.lastTradeTime = setLastTime s.lastTradeTime tok now := by
  unfold buy
  split_ifs with h1
  · exact Or.inl rfl
  · cases hfind : findPos s.positions tok with
    | none =>
        simp only [hfind]
        exact buyCommit_cases fee s tok p now _ none
    | some ex =>
        simp only [hfind]
        split_ifs with h2
        · exact Or.inl rfl
        · exact buyCommit_cases fee s tok p now _ (some ex)

lemma sell_cases (fee : ℚ) (s : PaperState) (tok : String) (p : ℚ) (now : ℤ) :
    sell fee s tok p now = (none, s) ∨
    ∃ tr st, sell fee s tok p now = (some tr, st) ∧
      st.lastTradeTime = setLastTime s.lastTradeTime tok now := by
  cases hfind : findPos s.positions tok with
  | none => left; simp only [sell, hfind]
  | some pos =>
      simp only [sell, hfind]
      split_ifs
      · exact Or.inl rfl
      · exact Or.inr ⟨_, _, rfl, rfl⟩

lemma executeTrade_cases (fee : ℚ) (s : PaperState) (sig : AISignal) (p : ℚ)
    (now : ℤ) :
    executeTrade fee s sig p now = (none, s) ∨
    (TRADE_COOLDOWN_MS ≤ now - getLastTime s.lastTradeTime sig.token ∧
      ∃ tr st, executeTrade fee s sig p now = (some tr, st) ∧
        st.lastTradeTime = setLastTime s.lastTradeTime sig.token now) := by
  unfold executeTrade
  split_ifs with h1
  · exact Or.inl rfl
  · have hcool : TRADE_COOLDOWN_MS ≤ now - getLastTime s.lastTradeTime sig.token :=
      le_of_not_lt h1
    cases hact : sig.action with
    | BUY =>
        rcases buy_cases fee s sig.token p now with hc | ⟨tr, st, heq, hlt⟩
        · exact Or.inl hc
        · exact Or.inr ⟨hcool, tr, st, heq, hlt⟩
    | SELL =>
        rcases sell_cases fee s sig.token p now with hc | ⟨tr, st, heq, hlt⟩
        · exact Or.inl hc
        · exact Or.inr ⟨hcool, tr, st, heq, hlt⟩
    | HOLD => exact Or.inl rfl

lemma buy_none_unchanged {fee : ℚ} {s : PaperState} {tok : String} {p : ℚ}
    {now : ℤ} (h : (buy fee s tok p now).1 = none) :
    buy fee s tok p now = (none, s) := by
  rcases buy_cases fee s tok p now with hc | ⟨tr, st, heq, _⟩
  · exact hc
  · rw [heq] at h
    exact absurd h (by simp)

lemma executeTrade_none_unchanged {fee : ℚ} {s : PaperState} {sig : AISignal}
    {p : ℚ} {now : ℤ} (h : (executeTrade fee s sig p now).1 = none) :
    executeTrade fee s sig p now = (none, s) := by
  rcases executeTrade_cases fee s sig p now with hc | ⟨_, tr, st, heq, _⟩
  · exact hc
  · rw [heq] at h
    exact absurd h (by simp)

/-! ### Cooldown trace lemmas -/

lemma runTrades_time_lb (fee : ℚ) :
    ∀ (calls : List (AISignal × ℚ × ℤ)) (s : PaperState) (e : String × ℤ),
      e ∈ (runTrades fee s calls).2 →
      getLastTime s.lastTradeTime e.1 + TRADE_COOLDOWN_MS ≤ e.2 := by
  intro calls
  induction calls with
  | nil => intro s e hmem; simp [runTrades] at hmem
  | cons c rest ih =>
      obtain ⟨sig, p, t0⟩ := c
      intro s e hmem
      rcases executeTrade_cases fee s sig p t0 with hc | ⟨hcool, tr, st, hex, hlt⟩
      · simp only [runTrades, hc] at hmem
        exact ih s e hmem
      · simp only [runTrades, hex] at hmem
        rcases List.mem_cons.mp hmem with heq | hmem2
        · subst heq
          simp only []
          omega
        · have hlast := ih st e hmem2
          have hmono : getLastTime s.lastTradeTime e.1 ≤
              getLastTime st.lastTradeTime e.1 := by
            rw [hlt]
            by_cases htok : e.1 = sig.token
            · rw [htok, getLastTime_set_self]
              have : (0 : ℤ) < TRADE_COOLDOWN_MS := by decide
              omega
            · rw [getLastTime_set_ne _ _ _ _ htok]
          omega

lemma runTrades_pairwise (fee : ℚ) :
    ∀ (calls : List (AISignal × ℚ × ℤ)) (s : PaperState),
      List.Pairwise (fun a b : String × ℤ => a.1 = b.1 → a.2 + TRADE_COOLDOWN_MS ≤ b.2)
        (runTrades fee s calls).2 := by
  intro calls
  induction calls with
  | nil => intro s; simp [runTrades]
  | cons c rest ih =>
      obtain ⟨sig, p, t0⟩ := c
      intro s
      rcases executeTrade_cases fee s sig p t0 with hc | ⟨hcool, tr, st, hex, hlt⟩
      · simp only [runTrades, hc]
        exact ih s
      · simp only [runTrades, hex]
        refine List.Pairwise.cons ?_ (ih st)
        intro b hb heq
        have := runTrades_time_lb fee rest st b hb
        rw [← heq, hlt, getLastTime_set_self] at this
        simpa using this

/-- C6: a per-symbol timestamp is recorded on every accepted trade (buy
and sell alike); any `executeTrade` call within the 60-second cooldown
window returns `null` without any state change; consequently, along any
sequence of `executeTrade` calls (monitor-triggered and signal-triggered
attempts both go through `executeTrade` in `server.ts`), any two accepted
trades on the same symbol are at least `TRADE_COOLDOWN_MS` apart. -/
theorem C6_cooldown :
    (∀ (s : PaperState) (sig : AISignal) (p : ℚ) (now : ℤ) (tr : Trade)
        (s' : PaperState),
      executeTrade FEE_PERCENTAGE s sig p now = (some tr, s') →
      getLastTime s'.lastTradeTime sig.token = now) ∧
    (∀ (s : PaperState) (sig : AISignal) (p : ℚ) (now : ℤ),
      now - getLastTime s.lastTradeTime sig.token < TRADE_COOLDOWN_MS →
      executeTrade FEE_PERCENTAGE s sig p now = (none, s)) ∧
    (∀ (s : PaperState) (calls : List (AISignal × ℚ × ℤ)),
      List.Pairwise (fun a b : String × ℤ => a.1 = b.1 → a.2 + TRADE_COOLDOWN_MS ≤ b.2)
        (runTrades FEE_PERCENTAGE s calls).2) := by
  refine ⟨?_, ?_, ?_⟩
  · intro s sig p now tr s' h
    rcases executeTrade_cases FEE_PERCENTAGE s sig p now with hc | ⟨_, tr2, st, heq, hlt⟩
    · rw [h] at hc
      exact absurd (congrArg Prod.fst hc) (by simp)
    · injection heq.symm.trans h with ha hb
      subst hb
      rw [hlt, getLastTime_set_self]
  · intro s sig p now h
    unfold executeTrade
    rw [if_pos h]
  · intro s calls
    exact runTrades_pairwise FEE_PERCENTAGE calls s

/-- Witness for C6: with a trade stamped at time 0, an attempt at time 1
on the same token is rejected and leaves the state untouched. -/
theorem C6_witness :
    executeTrade FEE_PERCENTAGE
      { cashBalance := 10, positions := [], trades := [], tradeCounter := 0,
        lastTradeTime := [("TOK", 0)] }
      { token := "TOK", action := Action.BUY, confidence := 80, reason := "sig" }
      1 1 =
    (none,
      { cashBalance := 10, positions := [], trades := [], tradeCounter := 0,
        lastTradeTime := [("TOK", 0)] }) :=
  C6_cooldown.2.1 _ _ _ _ (by decide)

/-- C9: whenever `buy` rejects — and its only `null` returns are the
sizing guards: available cash below the reserve-respecting minimum, a DCA
that would push the position past 2× the maximum position share, or an
investment below the minimum trade size — the entire portfolio state
(cash balance, position map, trade log, trade counter, cooldown stamps)
is exactly as before the call. -/
theorem C9_buy_reject_unchanged (s : PaperState) (tok : String) (p : ℚ)
    (now : ℤ) (h : (buy FEE_PERCENTAGE s tok p now).1 = none) :
    (buy FEE_PERCENTAGE s tok p now).2.cashBalance = s.cashBalance ∧
    (buy FEE_PERCENTAGE s tok p now).2.positions = s.positions ∧
    (buy FEE_PERCENTAGE s tok p now).2.trades = s.trades ∧
    (buy FEE_PERCENTAGE s tok p now).2.tradeCounter = s.tradeCounter ∧
    (buy FEE_PERCENTAGE s tok p now).2.lastTradeTime = s.lastTradeTime := by
  rw [buy_none_unchanged h]
  exact ⟨rfl, rfl, rfl, rfl, rfl⟩

/-- A state poor enough that `buy`'s reserve guard rejects: available
cash `0.01 − 0.01·20% = 0.008` is below the `0.05` minimum. -/
def C9state : PaperState :=
  { cashBalance := 1/100, positions := [], trades := [], tradeCounter := 0,
    lastTradeTime := [] }

/-- Witness for C9: the rejected buy on `C9state` changes nothing. -/
theorem C9_witness :
    (buy FEE_PERCENTAGE C9state "TOK" 1 0).2.cashBalance = C9state.cashBalance ∧
    (buy FEE_PERCENTAGE C9state "TOK" 1 0).2.positions = C9state.positions ∧
    (buy FEE_PERCENTAGE C9state "TOK" 1 0).2.trades = C9state.trades ∧
    (buy FEE_PERCENTAGE C9state "TOK" 1 0).2.tradeCounter = C9state.tradeCounter ∧
    (buy FEE_PERCENTAGE C9state "TOK" 1 0).2.lastTradeTime = C9state.lastTradeTime :=
  C9_buy_reject_unchanged C9state "TOK" 1 0 (by
    norm_num [buy, availableCash, getTotalEquity, C9state, MIN_CASH_RESERVE,
      MIN_TRADE_AMOUNT])

/-- C10: a `SELL` signal for a token with no open position, or with a
non-positive (in the source also non-finite) amount, and any `HOLD`
signal, make `executeTrade` return `null` with the state — cash,
positions, trade log, trade counter, cooldown stamps — untouched. -/
theorem C10_sell_hold_noop (s : PaperState) (sig : AISignal) (p : ℚ)
    (now : ℤ) :
    (sig.action = Action.HOLD →
      executeTrade FEE_PERCENTAGE s sig p now = (none, s)) ∧
    (sig.action = Action.SELL → findPos s.positions sig.token = none →
      executeTrade FEE_PERCENTAGE s sig p now = (none, s)) ∧
    (∀ pos, sig.action = Action.SELL →
      findPos s.positions sig.token = some pos → pos.amount ≤ 0 →
      executeTrade FEE_PERCENTAGE s sig p now = (none, s)) := by
  refine ⟨?_, ?_, ?_⟩
  · intro hact
    unfold executeTrade
    split_ifs with h1
    · rfl
    · rw [hact]
  · intro hact hfind
    unfold executeTrade
    split_ifs with h1
    · rfl
    · rw [hact]
      unfold sell
      rw [hfind]
  · intro pos hact hfind hamt
    unfold executeTrade
    split_ifs with h1
    · rfl
    · rw [hact]
      unfold sell
      rw [hfind]
      dsimp only
      rw [if_pos hamt]

/-- Witness for C10: on the fresh state, a `HOLD` signal and a `SELL`
signal for an unheld token both return `null` and leave the state
untouched. -/
theorem C10_witness :
    executeTrade FEE_PERCENTAGE initPaperState
      { token := "TOK", action := Action.HOLD, confidence := 0, reason := "hold" }
      1 70000 = (none, initPaperState) ∧
    executeTrade FEE_PERCENTAGE initPaperState
      { token := "TOK", action := Action.SELL, confidence := 90, reason := "sell" }
      1 70000 = (none, initPaperState) :=
  ⟨(C10_sell_hold_noop initPaperState _ 1 70000).1 rfl,
   (C10_sell_hold_noop initPaperState _ 1 70000).2.1 rfl rfl⟩

/-! ### Single-sample reduction of the monitor -/

lemma monitorPositions_single_fst {s : PaperState} {d : MarketData}
    {pos : Position} (hfind : findPos s.positions d.token = some pos) :
    (monitorPositions s [d]).1 =
      monitorDecide (peakUpdate pos d.price) d.token d.price := by
  unfold monitorPositions
  rw [hfind]
  dsimp only
  cases monitorDecide (peakUpdate pos d.price) d.token d.price <;> rfl

/-- The position whose loss from the initial entry is −16%, below the
−15% hard stop, while DCA level 0 means the −2% zone also triggers (the
fields are mutually consistent: `pnl = amount·price − totalCost`,
`pnlPercentage = pnl/totalCost·100`). -/
def C1pos : Position :=
  { token := "TOK", amount := 1, avgBuyPrice := 1, currentPrice := 21/25,
    pnl := -4/25, pnlPercentage := -16, dcaLevel := 0, initialBuyPrice := 1,
    highestPrice := 1, totalCost := 1 }

/-- Counterexample to C1 as stated: at −16% P&L (at or below the hard
stop) with `dcaLevel = 0`, `monitorPositions` returns a DCA **BUY**, not
the claimed unconditional SELL — the DCA-zone check (step 3) precedes
and short-circuits the hard stop (step 4). -/
theorem C1_counterexample :
    C1pos.pnlPercentage ≤ HARD_STOP_LOSS * 100 ∧
    ((monitorPositions
        { cashBalance := 10, positions := [C1pos], trades := [],
          tradeCounter := 0, lastTradeTime := [] }
        [{ token := "TOK", price := 21/25, change24h := 0, timestamp := 0 }]).1).map
      MonitorAction.action = some Action.BUY :=
  ⟨by norm_num [C1pos, HARD_STOP_LOSS],
   by norm_num [monitorPositions, monitorDecide, peakUpdate, pnlFromInitial,
     dropFromPeak, findPos, List.find?, C1pos, DCA_ZONES, DCA_MULTIPLIERS,
     TRAILING_STOP_ACTIVATION, TRAILING_STOP_CALLBACK, HARD_STOP_LOSS]⟩

/-- C1 amended: the hard stop-loss SELL fires for a position at or below
−15% only when no earlier exit short-circuits it — the trailing stop
cannot (it needs `pnlPercentage > 1.5`), but a DCA-zone trigger at the
same price takes priority and yields a BUY instead; so the SELL is
guaranteed exactly when no DCA zone trigger applies (levels exhausted,
or the drop from the initial entry above the current zone). -/
theorem C1_amended_hard_stop (s : PaperState) (pos : Position) (d : MarketData)
    (hfind : findPos s.positions d.token = some pos)
    (hdca : ¬ (pos.dcaLevel < DCA_ZONES.length ∧
        pnlFromInitial pos d.price ≤ DCA_ZONES.getD pos.dcaLevel 0))
    (hhard : pos.pnlPercentage ≤ HARD_STOP_LOSS * 100) :
    (monitorPositions s [d]).1 =
      some ⟨d.token, Action.SELL, MonitorReason.hardStop pos.dcaLevel⟩ := by
  have hc1 : ¬ (TRAILING_STOP_ACTIVATION * 100 <
      (peakUpdate pos d.price).pnlPercentage ∧
      dropFromPeak (peakUpdate pos d.price) d.price < -TRAILING_STOP_CALLBACK) := by
    rintro ⟨h1, -⟩
    rw [peakUpdate_pnlPercentage] at h1
    have hA : TRAILING_STOP_ACTIVATION * 100 = (3/2 : ℚ) := by
      norm_num [TRAILING_STOP_ACTIVATION]
    have hH : HARD_STOP_LOSS * 100 = (-15 : ℚ) := by
      norm_num [HARD_STOP_LOSS]
    rw [hA] at h1
    rw [hH] at hhard
    linarith
  have hc2 : ¬ ((peakUpdate pos d.price).dcaLevel < DCA_ZONES.length ∧
      pnlFromInitial (peakUpdate pos d.price) d.price ≤
        DCA_ZONES.getD (peakUpdate pos d.price).dcaLevel 0) := by
    rw [peakUpdate_dcaLevel, pnlFromInitial_peakUpdate]
    exact hdca
  have hc3 : (peakUpdate pos d.price).pnlPercentage ≤ HARD_STOP_LOSS * 100 := by
    rw [peakUpdate_pnlPercentage]
    exact hhard
  rw [monitorPositions_single_fst hfind]
  unfold monitorDecide
  rw [if_neg hc1, if_neg hc2, if_pos hc3, peakUpdate_dcaLevel]

/-- `C1pos` with the DCA levels exhausted: hypotheses of the amended C1
hold concretely. -/
def C1wpos : Position :=
  { token := "TOK", amount := 1, avgBuyPrice := 1, currentPrice := 21/25,
    pnl := -4/25, pnlPercentage := -16, dcaLevel := 3, initialBuyPrice := 1,
    highestPrice := 1, totalCost := 1 }

/-- Witness for the amended C1: with DCA exhausted the −16% position is
sold by the hard stop. -/
theorem C1_witness :
    (monitorPositions
        { cashBalance := 10, positions := [C1wpos], trades := [],
          tradeCounter := 0, lastTradeTime := [] }
        [{ token := "TOK", price := 21/25, change24h := 0, timestamp := 0 }]).1 =
      some ⟨"TOK", Action.SELL, MonitorReason.hardStop 3⟩ :=
  C1_amended_hard_stop _ C1wpos _ (by rfl)
    (by rintro ⟨h1, -⟩; exact absurd h1 (by norm_num [C1wpos, DCA_ZONES]))
    (by norm_num [C1wpos, HARD_STOP_LOSS])

/-- The zone-selection rule as the specification's Scenario B words
describe it (a comparison definition following the spec, **not** the
source): among the not-yet-consumed zone indices (there are three), the
deepest one the drop from the initial entry has reached. -/
def specDeepestUncrossedZone (dcaLevel : ℕ) (drop : ℚ) : Option ℕ :=
  if dcaLevel ≤ 2 ∧ drop ≤ DCA_ZONES.getD 2 0 then some 2
  else if dcaLevel ≤ 1 ∧ drop ≤ DCA_ZONES.getD 1 0 then some 1
  else if dcaLevel ≤ 0 ∧ drop ≤ DCA_ZONES.getD 0 0 then some 0
  else none

/-- Scenario B position: initial entry 1.00, price 0.94 (−6%),
`dcaLevel = 0` (fields mutually consistent as in `C1pos`). -/
def C3pos : Position :=
  { token := "TOK", amount := 1, avgBuyPrice := 1, currentPrice := 47/50,
    pnl := -3/50, pnlPercentage := -6, dcaLevel := 0, initialBuyPrice := 1,
    highestPrice := 1, totalCost := 1 }

/-- Counterexample to C3 as stated: at −6% from the initial entry with
`dcaLevel = 0`, the engine triggers zone index 0 (−2%, `nextLevel = 1`,
multiplier 1) — the *shallowest* unconsumed zone — whereas the deepest
uncrossed zone reached is index 1 (−5%), which per the claim would mean
`nextLevel = 2`.  The code's advanced level (1) differs from the
claim's (1 + 1 = 2). -/
theorem C3_counterexample :
    (monitorPositions
        { cashBalance := 10, positions := [C3pos], trades := [],
          tradeCounter := 0, lastTradeTime := [] }
        [{ token := "TOK", price := 47/50, change24h := 0, timestamp := 0 }]).1 =
      some ⟨"TOK", Action.BUY, MonitorReason.dcaTrigger 1 1⟩ ∧
    specDeepestUncrossedZone C3pos.dcaLevel (pnlFromInitial C3pos (47/50)) = some 1 ∧
    (1 : ℕ) + 1 ≠ 1 :=
  ⟨by norm_num [monitorPositions, monitorDecide, peakUpdate, pnlFromInitial,
      dropFromPeak, findPos, List.find?, C3pos, DCA_ZONES, DCA_MULTIPLIERS,
      TRAILING_STOP_ACTIVATION, TRAILING_STOP_CALLBACK, HARD_STOP_LOSS],
   by norm_num [specDeepestUncrossedZone, DCA_ZONES, C3pos, pnlFromInitial],
   by decide⟩

/-- C3 amended: with the trailing stop not firing, `monitorPositions`
proposes a DCA BUY exactly when `dcaLevel < len(zones)` and the drop
from the initial entry has reached `dcaZones[dcaLevel]`; the zone it
triggers is always index `dcaLevel` — the shallowest unconsumed zone,
advancing one level per monitor pass (never a consumed zone, and not the
deepest zone reached). -/
theorem C3_amended_dca_shallowest (s : PaperState) (pos : Position)
    (d : MarketData) (hfind : findPos s.positions d.token = some pos)
    (htrail : ¬ (TRAILING_STOP_ACTIVATION * 100 < pos.pnlPercentage ∧
        dropFromPeak (peakUpdate pos d.price) d.price < -TRAILING_STOP_CALLBACK)) :
    ((∃ a, (monitorPositions s [d]).1 = some a ∧ a.action = Action.BUY) ↔
      (pos.dcaLevel < DCA_ZONES.length ∧
        pnlFromInitial pos d.price ≤ DCA_ZONES.getD pos.dcaLevel 0)) ∧
    (pos.dcaLevel < DCA_ZONES.length →
      pnlFromInitial pos d.price ≤ DCA_ZONES.getD pos.dcaLevel 0 →
      (monitorPositions s [d]).1 = some ⟨d.token, Action.BUY,
        MonitorReason.dcaTrigger (pos.dcaLevel + 1)
          (DCA_MULTIPLIERS.getD pos.dcaLevel 0)⟩) := by
  have hc1 : ¬ (TRAILING_STOP_ACTIVATION * 100 <
      (peakUpdate pos d.price).pnlPercentage ∧
      dropFromPeak (peakUpdate pos d.price) d.price < -TRAILING_STOP_CALLBACK) := by
    rw [peakUpdate_pnlPercentage]
    exact htrail
  rw [monitorPositions_single_fst hfind]
  constructor
  · constructor
    · rintro ⟨a, ha, hact⟩
      by_cases hdca : pos.dcaLevel < DCA_ZONES.length ∧
          pnlFromInitial pos d.price ≤ DCA_ZONES.getD pos.dcaLevel 0
      · exact hdca
      · exfalso
        have hc2 : ¬ ((peakUpdate pos d.price).dcaLevel < DCA_ZONES.length ∧
            pnlFromInitial (peakUpdate pos d.price) d.price ≤
              DCA_ZONES.getD (peakUpdate pos d.price).dcaLevel 0) := by
          rw [peakUpdate_dcaLevel, pnlFromInitial_peakUpdate]
          exact hdca
        unfold monitorDecide at ha
        rw [if_neg hc1, if_neg hc2] at ha
        by_cases h3 : (peakUpdate pos d.price).pnlPercentage ≤ HARD_STOP_LOSS * 100
        · rw [if_pos h3] at ha
          injection ha with ha'
          rw [← ha'] at hact
          exact absurd hact (by simp)
        · rw [if_neg h3] at ha
          exact absurd ha (by simp)
    · rintro ⟨h1, h2⟩
      refine ⟨⟨d.token, Action.BUY, MonitorReason.dcaTrigger (pos.dcaLevel + 1)
          (DCA_MULTIPLIERS.getD pos.dcaLevel 0)⟩, ?_, rfl⟩
      unfold monitorDecide
      rw [if_neg hc1, if_pos (by
        rw [peakUpdate_dcaLevel, pnlFromInitial_peakUpdate]
        exact ⟨h1, h2⟩), peakUpdate_dcaLevel]
  · intro h1 h2
    unfold monitorDecide
    rw [if_neg hc1, if_pos (by
      rw [peakUpdate_dcaLevel, pnlFromInitial_peakUpdate]
      exact ⟨h1, h2⟩), peakUpdate_dcaLevel]

/-- Witness for the amended C3: on the Scenario B position the DCA BUY
fires at zone index `dcaLevel = 0`, advancing to level 1 with
multiplier 1. -/
theorem C3_witness :
    (monitorPositions
        { cashBalance := 10, positions := [C3pos], trades := [],
          tradeCounter := 1, lastTradeTime := [] }
        [{ token := "TOK", price := 47/50, change24h := 0, timestamp := 0 }]).1 =
      some ⟨"TOK", Action.BUY, MonitorReason.dcaTrigger 1 1⟩ :=
  (C3_amended_dca_shallowest _ C3pos _ (by rfl)
      (by rintro ⟨h1, -⟩; norm_num [C3pos, TRAILING_STOP_ACTIVATION] at h1)).2
    (by norm_num [C3pos, DCA_ZONES]) (by norm_num [C3pos, pnlFromInitial, DCA_ZONES])

/-! ### Buy/sell round trip (C2) -/

lemma buy_fresh_spec {fee : ℚ} {s : PaperState} {tok : String} {p : ℚ}
    {now : ℤ} {tr : Trade} {s1 : PaperState}
    (hfresh : findPos s.positions tok = none)
    (hbuy : buy fee s tok p now = (some tr, s1)) :
    MIN_TRADE_AMOUNT ≤ tr.total ∧
    s1.cashBalance = s.cashBalance - tr.total ∧
    findPos s1.positions tok = some
      { token := tok, amount := (tr.total - tr.total * fee) / p,
        avgBuyPrice := p, currentPrice := p, pnl := 0, pnlPercentage := 0,
        dcaLevel := 0, initialBuyPrice := p, highestPrice := p,
        totalCost := tr.total - tr.total * fee } := by
  unfold buy at hbuy
  split_ifs at hbuy with h1
  · exact absurd hbuy (by simp)
  · rw [hfresh] at hbuy
    dsimp only at hbuy
    unfold buyCommit at hbuy
    split_ifs at hbuy with h2
    · exact absurd hbuy (by simp)
    · injection hbuy with htr hs1
      injection htr with htr'
      subst htr'
      subst hs1
      refine ⟨le_of_not_lt h2, rfl, ?_⟩
      exact findPos_setPos_self s.positions _

lemma sell_pos_spec (fee : ℚ) (s : PaperState) (tok : String) (p : ℚ)
    (now : ℤ) {pos : Position} (hfind : findPos s.positions tok = some pos)
    (hamt : 0 < pos.amount) :
    ∃ tr2 s2, sell fee s tok p now = (some tr2, s2) ∧
      s2.cashBalance = s.cashBalance + (pos.amount * p - pos.amount * p * fee) := by
  unfold sell
  rw [hfind]
  dsimp only
  rw [if_neg (not_le.mpr hamt)]
  exact ⟨_, _, rfl, rfl⟩

/-- C2 amended: buying a fresh token and then selling the whole position
at the same price `p` changes the cash balance by exactly
`−fee·(2 − fee)·I`, where `I` is the buy notional (`tr.total`) — i.e.
the two fees `fee·I` and `fee·(1 − fee)·I` — not by `−2·fee·I`; with
`fee = 0` the cash balance is exactly unchanged. -/
theorem C2_amended_roundtrip (fee : ℚ) (s : PaperState) (tok : String)
    (p : ℚ) (now1 now2 : ℤ) (hfee : fee < 1) (hp : 0 < p)
    (hfresh : findPos s.positions tok = none) (tr : Trade) (s1 : PaperState)
    (hbuy : buy fee s tok p now1 = (some tr, s1)) :
    ∃ tr2 s2, sell fee s1 tok p now2 = (some tr2, s2) ∧
      s2.cashBalance = s.cashBalance - fee * (2 - fee) * tr.total ∧
      (fee = 0 → s2.cashBalance = s.cashBalance) := by
  obtain ⟨hmin, hcash, hpos⟩ := buy_fresh_spec hfresh hbuy
  have hI : (0:ℚ) < tr.total :=
    lt_of_lt_of_le (by norm_num [MIN_TRADE_AMOUNT]) hmin
  have hnet : (0:ℚ) < tr.total - tr.total * fee := by nlinarith
  have hamt : (0:ℚ) < (tr.total - tr.total * fee) / p := div_pos hnet hp
  obtain ⟨tr2, s2, hsell, hcash2⟩ := sell_pos_spec fee s1 tok p now2 hpos hamt
  have hp0 : p ≠ 0 := ne_of_gt hp
  have hmain : s2.cashBalance = s.cashBalance - fee * (2 - fee) * tr.total := by
    rw [hcash2, hcash, div_mul_cancel₀ _ hp0]
    ring
  exact ⟨tr2, s2, hsell, hmain, fun h0 => by rw [hmain, h0]; ring⟩

/-- Counterexample to C2 as stated: from the fresh 10-SOL portfolio, a
buy of notional `I = 1.2` at price 1 followed by a full sell at the same
price with `fee = 0.1%` leaves the cash at `9.9976012`, a loss of
`0.0023988 = fee·(2 − fee)·I`, not the claimed `2·fee·I = 0.0024`. -/
theorem C2_counterexample :
    ((buy FEE_PERCENTAGE initPaperState "TOK" 1 0).1).map Trade.total =
      some (6/5) ∧
    ((sell FEE_PERCENTAGE (buy FEE_PERCENTAGE initPaperState "TOK" 1 0).2
        "TOK" 1 0).2).cashBalance ≠
      initPaperState.cashBalance - 2 * FEE_PERCENTAGE * (6/5) := by
  constructor
  · norm_num [buy, buyCommit, availableCash, getTotalEquity, initPaperState,
      findPos, setPos, setLastTime, MIN_CASH_RESERVE, MIN_TRADE_AMOUNT,
      BUY_PERCENT, MAX_POSITION_PERCENT, FEE_PERCENTAGE, INITIAL_BALANCE,
      min_def]
  · norm_num [buy, buyCommit, sell, delPos, availableCash, getTotalEquity,
      initPaperState, findPos, setPos, setLastTime, MIN_CASH_RESERVE,
      MIN_TRADE_AMOUNT, BUY_PERCENT, MAX_POSITION_PERCENT, FEE_PERCENTAGE,
      INITIAL_BALANCE, min_def]

/-- Witness for the amended C2: the same concrete round trip loses
exactly `fee·(2 − fee)·1.2`. -/
theorem C2_witness :
    ∃ tr2 s2,
      sell FEE_PERCENTAGE (buy FEE_PERCENTAGE initPaperState "TOK" 1 0).2
        "TOK" 1 0 = (some tr2, s2) ∧
      s2.cashBalance = initPaperState.cashBalance -
        FEE_PERCENTAGE * (2 - FEE_PERCENTAGE) * (6/5) ∧
      (FEE_PERCENTAGE = 0 →
        s2.cashBalance = initPaperState.cashBalance) := by
  have h1 : (buy FEE_PERCENTAGE initPaperState "TOK" 1 0).1 =
      some { id := 1, timestamp := 0, token := "TOK", action := Action.BUY,
             amount := 2997/2500, price := 1, fee := 3/2500, total := 6/5 } := by
    norm_num [buy, buyCommit, availableCash, getTotalEquity, initPaperState,
      findPos, setPos, setLastTime, MIN_CASH_RESERVE, MIN_TRADE_AMOUNT,
      BUY_PERCENT, MAX_POSITION_PERCENT, FEE_PERCENTAGE, INITIAL_BALANCE,
      min_def]
  exact C2_amended_roundtrip FEE_PERCENTAGE initPaperState "TOK" 1 0 0
    (by norm_num [FEE_PERCENTAGE]) (by norm_num) rfl _ _ (Prod.ext h1 rfl)

/-! ### Peak-tracking invariants (C7) -/

/-- The per-position relation every engine operation preserves while a
position stays open: the peak never decreases and the first entry price
is never rewritten. -/
def posMono (p p' : Position) : Prop :=
  p.highestPrice ≤ p'.highestPrice ∧ p'.initialBuyPrice = p.initialBuyPrice

lemma posMono_refl (p : Position) : posMono p p := ⟨le_refl _, rfl⟩

lemma posMono_trans {a b c : Position} (h1 : posMono a b) (h2 : posMono b c) :
    posMono a c :=
  ⟨le_trans h1.1 h2.1, h2.2.trans h1.2⟩

lemma setPos_mono_exists {l : List Position} {ex q : Position}
    (hfind_ex : findPos l q.token = some ex) (hmono : posMono ex q)
    {tok : String} {p : Position} (hp : findPos l tok = some p) :
    ∃ p1, findPos (setPos l q) tok = some p1 ∧ posMono p p1 := by
  by_cases htok : tok = q.token
  · subst htok
    have hex : ex = p := Option.some.inj (hfind_ex.symm.trans hp)
    exact ⟨q, findPos_setPos_self l q, hex ▸ hmono⟩
  · rw [findPos_setPos_ne l q tok htok]
    exact ⟨p, hp, posMono_refl p⟩

lemma setPos_mono {l : List Position} {ex q : Position}
    (hfind_ex : findPos l q.token = some ex) (hmono : posMono ex q)
    {tok : String} {p p' : Position} (hp : findPos l tok = some p)
    (hp' : findPos (setPos l q) tok = some p') : posMono p p' := by
  obtain ⟨p1, hp1, hm⟩ := setPos_mono_exists hfind_ex hmono hp
  obtain rfl := Option.some.inj (hp1.symm.trans hp')
  exact hm

lemma setPos_new_eq {l : List Position} {q : Position}
    (hnew : findPos l q.token = none) {tok : String} {p p' : Position}
    (hp : findPos l tok = some p)
    (hp' : findPos (setPos l q) tok = some p') : p' = p := by
  have htok : tok ≠ q.token := by
    intro h
    rw [h, hnew] at hp
    cases hp
  rw [findPos_setPos_ne l q tok htok] at hp'
  exact (Option.some.inj (hp.symm.trans hp')).symm

lemma trailStep_mono_exists {s : PaperState} {d : MarketData} {tok : String}
    {p : Position} (hp : findPos s.positions tok = some p) :
    ∃ p1, findPos (trailStep s d).positions tok = some p1 ∧ posMono p p1 := by
  unfold trailStep
  cases hfind : findPos s.positions d.token with
  | none => exact ⟨p, hp, posMono_refl p⟩
  | some pos =>
      dsimp only
      split_ifs with hhigh
      · have h1 : findPos s.positions ({ pos with highestPrice := d.price }).token
            = some pos := by
          show findPos s.positions pos.token = some pos
          rw [findPos_token hfind]
          exact hfind
        exact setPos_mono_exists h1 ⟨le_of_lt hhigh, rfl⟩ hp
      · exact ⟨p, hp, posMono_refl p⟩

lemma updateTrailingHighs_mono :
    ∀ (md : List MarketData) (s : PaperState) {tok : String} {p p' : Position},
      findPos s.positions tok = some p →
      findPos (updateTrailingHighs s md).positions tok = some p' →
      posMono p p' := by
  intro md
  induction md with
  | nil =>
      intro s tok p p' hp hp'
      obtain rfl := Option.some.inj (hp.symm.trans hp')
      exact posMono_refl p
  | cons d rest ih =>
      intro s tok p p' hp hp'
      obtain ⟨p1, hp1, hm1⟩ := trailStep_mono_exists (d := d) hp
      exact posMono_trans hm1 (ih (trailStep s d) hp1 hp')

lemma monitorPositions_mono :
    ∀ (md : List MarketData) (s : PaperState) {tok : String} {p p' : Position},
      findPos s.positions tok = some p →
      findPos ((monitorPositions s md).2).positions tok = some p' →
      posMono p p' := by
  intro md
  induction md with
  | nil =>
      intro s tok p p' hp hp'
      obtain rfl := Option.some.inj (hp.symm.trans hp')
      exact posMono_refl p
  | cons d rest ih =>
      intro s tok p p' hp hp'
      unfold monitorPositions at hp'
      cases hfind : findPos s.positions d.token with
      | none =>
          rw [hfind] at hp'
          exact ih s hp hp'
      | some position =>
          rw [hfind] at hp'
          dsimp only at hp'
          have hq : findPos s.positions (peakUpdate position d.price).token
              = some position := by
            rw [peakUpdate_token, findPos_token hfind]
            exact hfind
          have hqm : posMono position (peakUpdate position d.price) :=
            ⟨peakUpdate_highestPrice_ge position d.price,
             peakUpdate_initialBuyPrice position d.price⟩
          cases hdec : monitorDecide (peakUpdate position d.price) d.token d.price with
          | some a =>
              rw [hdec] at hp'
              dsimp only at hp'
              exact setPos_mono hq hqm hp hp'
          | none =>
              rw [hdec] at hp'
              dsimp only at hp'
              obtain ⟨p1, hp1, hm1⟩ := setPos_mono_exists hq hqm hp
              exact posMono_trans hm1
                (ih { s with positions := setPos s.positions (peakUpdate position d.price) }
                  hp1 hp')

lemma buy_mono {fee : ℚ} {s : PaperState} {btok : String} {bp : ℚ} {bnow : ℤ}
    {tok : String} {p p' : Position}
    (hp : findPos s.positions tok = some p)
    (hp' : findPos ((buy fee s btok bp bnow).2).positions tok = some p') :
    posMono p p' := by
  unfold buy at hp'
  split_ifs at hp' with h1
  · obtain rfl := Option.some.inj (hp.symm.trans hp')
    exact posMono_refl p
  · cases hfind : findPos s.positions btok with
    | none =>
        rw [hfind] at hp'
        dsimp only at hp'
        unfold buyCommit at hp'
        split_ifs at hp' with h2
        · obtain rfl := Option.some.inj (hp.symm.trans hp')
          exact posMono_refl p
        · dsimp only at hp'
          have hnew : findPos s.positions
              ({ token := btok,
                 amount := (min (availableCash s * BUY_PERCENT)
                     (getTotalEquity s * MAX_POSITION_PERCENT) -
                   min (availableCash s * BUY_PERCENT)
                     (getTotalEquity s * MAX_POSITION_PERCENT) * fee) / bp,
                 avgBuyPrice := bp, currentPrice := bp, pnl := 0,
                 pnlPercentage := 0, dcaLevel := 0, initialBuyPrice := bp,
                 highestPrice := bp,
                 totalCost := min (availableCash s * BUY_PERCENT)
                     (getTotalEquity s * MAX_POSITION_PERCENT) -
                   min (availableCash s * BUY_PERCENT)
                     (getTotalEquity s * MAX_POSITION_PERCENT) * fee } :
                Position).token = none := hfind
          obtain rfl := setPos_new_eq hnew hp hp'
          exact posMono_refl _
    | some ex =>
        rw [hfind] at hp'
        dsimp only at hp'
        split_ifs at hp' with h2
        · obtain rfl := Option.some.inj (hp.symm.trans hp')
          exact posMono_refl p
        · unfold buyCommit at hp'
          split_ifs at hp' with h3
          · obtain rfl := Option.some.inj (hp.symm.trans hp')
            exact posMono_refl p
          · dsimp only at hp'
            have hq : findPos s.positions
                ({ ex with
                   amount := ex.amount + (dcaInvestment (availableCash s) ex -
                     dcaInvestment (availableCash s) ex * fee) / bp,
                   totalCost := ex.totalCost + (dcaInvestment (availableCash s) ex -
                     dcaInvestment (availableCash s) ex * fee),
                   avgBuyPrice := (ex.totalCost + (dcaInvestment (availableCash s) ex -
                       dcaInvestment (availableCash s) ex * fee)) /
                     (ex.amount + (dcaInvestment (availableCash s) ex -
                       dcaInvestment (availableCash s) ex * fee) / bp),
                   currentPrice := bp,
                   dcaLevel := ex.dcaLevel + 1 } : Position).token = some ex := by
              show findPos s.positions ex.token = some ex
              rw [findPos_token hfind]
              exact hfind
            exact setPos_mono hq ⟨le_refl _, rfl⟩ hp hp'

lemma sell_mono {fee : ℚ} {s : PaperState} {stok : String} {sp : ℚ} {snow : ℤ}
    {tok : String} {p p' : Position}
    (hp : findPos s.positions tok = some p)
    (hp' : findPos ((sell fee s stok sp snow).2).positions tok = some p') :
    posMono p p' := by
  unfold sell at hp'
  cases hfind : findPos s.positions stok with
  | none =>
      rw [hfind] at hp'
      obtain rfl := Option.some.inj (hp.symm.trans hp')
      exact posMono_refl p
  | some pos =>
      rw [hfind] at hp'
      dsimp only at hp'
      split_ifs at hp' with h1
      · obtain rfl := Option.some.inj (hp.symm.trans hp')
        exact posMono_refl p
      · have htok : tok ≠ stok := by
          intro h
          rw [h] at hp'
          rw [findPos_delPos_self] at hp'
          cases hp'
        rw [findPos_delPos_ne s.positions stok tok htok] at hp'
        obtain rfl := Option.some.inj (hp.symm.trans hp')
        exact posMono_refl p

lemma updatePrices_mono {s : PaperState} {utok : String} {up : ℚ}
    {tok : String} {p p' : Position}
    (hp : findPos s.positions tok = some p)
    (hp' : findPos ((updatePrices s utok up)).positions tok = some p') :
    posMono p p' := by
  unfold updatePrices at hp'
  cases hfind : findPos s.positions utok with
  | none =>
      rw [hfind] at hp'
      obtain rfl := Option.some.inj (hp.symm.trans hp')
      exact posMono_refl p
  | some position =>
      rw [hfind] at hp'
      dsimp only at hp'
      have hq : findPos s.positions
          ({ position with
             currentPrice := up,
             pnl := position.amount * up - position.totalCost,
             pnlPercentage := (position.amount * up - position.totalCost) /
               position.totalCost * 100 } : Position).token = some position := by
        show findPos s.positions position.token = some position
        rw [findPos_token hfind]
        exact hfind
      exact setPos_mono hq ⟨le_refl _, rfl⟩ hp hp'

lemma stepOp_mono (fee : ℚ) (s : PaperState) (op : EngineOp) {tok : String}
    {p p' : Position} (hp : findPos s.positions tok = some p)
    (hp' : findPos (stepOp fee s op).positions tok = some p') :
    posMono p p' := by
  cases op with
  | updPrices utok up => exact updatePrices_mono hp hp'
  | trailingHighs md => exact updateTrailingHighs_mono md s hp hp'
  | monitor md => exact monitorPositions_mono md s hp hp'
  | execTrade sig pr now =>
      simp only [stepOp] at hp'
      unfold executeTrade at hp'
      split_ifs at hp' with h1
      · obtain rfl := Option.some.inj (hp.symm.trans hp')
        exact posMono_refl p
      · cases hact : sig.action with
        | BUY =>
            rw [hact] at hp'
            dsimp only at hp'
            exact buy_mono hp hp'
        | SELL =>
            rw [hact] at hp'
            dsimp only at hp'
            exact sell_mono hp hp'
        | HOLD =>
            rw [hact] at hp'
            dsimp only at hp'
            obtain rfl := Option.some.inj (hp.symm.trans hp')
            exact posMono_refl p

/-- The state invariant `highestPrice ≥ initialBuyPrice` for every open
position.  It holds of any state whose positions were created by `buy`
(a fresh entry sets both to the entry price) and, by the preservation
lemma below, of every reachable state. -/
@[reducible] def highestInv (s : PaperState) : Prop :=
  ∀ q ∈ s.positions, q.initialBuyPrice ≤ q.highestPrice

lemma trailStep_inv {s : PaperState} {d : MarketData} (hinv : highestInv s) :
    highestInv (trailStep s d) := by
  unfold trailStep
  cases hfind : findPos s.positions d.token with
  | none => exact hinv
  | some pos =>
      dsimp only
      split_ifs with hhigh
      · intro q hq
        rcases mem_setPos hq with rfl | hmem
        · exact le_trans (hinv pos (findPos_mem hfind)) (le_of_lt hhigh)
        · exact hinv q hmem
      · exact hinv

lemma updateTrailingHighs_inv :
    ∀ (md : List MarketData) (s : PaperState), highestInv s →
      highestInv (updateTrailingHighs s md) := by
  intro md
  induction md with
  | nil => intro s h; exact h
  | cons d rest ih => intro s h; exact ih (trailStep s d) (trailStep_inv h)

lemma monitorPositions_inv :
    ∀ (md : List MarketData) (s : PaperState), highestInv s →
      highestInv ((monitorPositions s md).2) := by
  intro md
  induction md with
  | nil => intro s h; exact h
  | cons d rest ih =>
      intro s h
      unfold monitorPositions
      cases hfind : findPos s.positions d.token with
      | none => exact ih s h
      | some position =>
          dsimp only
          have hset : highestInv
              { s with positions := setPos s.positions (peakUpdate position d.price) } := by
            intro q hq
            rcases mem_setPos hq with rfl | hmem
            · rw [peakUpdate_initialBuyPrice]
              exact le_trans (h position (findPos_mem hfind))
                (peakUpdate_highestPrice_ge position d.price)
            · exact h q hmem
          cases hdec : monitorDecide (peakUpdate position d.price) d.token d.price with
          | some a => exact hset
          | none => exact ih _ hset

lemma updatePrices_inv {s : PaperState} {utok : String} {up : ℚ}
    (hinv : highestInv s) : highestInv (updatePrices s utok up) := by
  unfold updatePrices
  cases hfind : findPos s.positions utok with
  | none => exact hinv
  | some position =>
      dsimp only
      intro q hq
      rcases mem_setPos hq with rfl | hmem
      · exact hinv position (findPos_mem hfind)
      · exact hinv q hmem

lemma buy_inv {fee : ℚ} {s : PaperState} {btok : String} {bp : ℚ} {bnow : ℤ}
    (hinv : highestInv s) : highestInv ((buy fee s btok bp bnow).2) := by
  unfold buy
  split_ifs with h1
  · exact hinv
  · cases hfind : findPos s.positions btok with
    | none =>
        dsimp only
        unfold buyCommit
        split_ifs with h2
        · exact hinv
        · dsimp only
          intro q hq
          rcases mem_setPos hq with rfl | hmem
          · exact le_refl bp
          · exact hinv q hmem
    | some ex =>
        dsimp only
        split_ifs with h2
        · exact hinv
        · unfold buyCommit
          split_ifs with h3
          · exact hinv
          · dsimp only
            intro q hq
            rcases mem_setPos hq with rfl | hmem
            · exact hinv ex (findPos_mem hfind)
            · exact hinv q hmem

lemma sell_inv {fee : ℚ} {s : PaperState} {stok : String} {sp : ℚ} {snow : ℤ}
    (hinv : highestInv s) : highestInv ((sell fee s stok sp snow).2) := by
  unfold sell
  cases hfind : findPos s.positions stok with
  | none => exact hinv
  | some pos =>
      dsimp only
      split_ifs with h1
      · exact hinv
      · intro q hq
        exact hinv q (List.mem_of_mem_filter hq)

lemma stepOp_inv (fee : ℚ) (s : PaperState) (op : EngineOp)
    (hinv : highestInv s) : highestInv (stepOp fee s op) := by
  cases op with
  | updPrices utok up => exact updatePrices_inv hinv
  | trailingHighs md => exact updateTrailingHighs_inv md s hinv
  | monitor md => exact monitorPositions_inv md s hinv
  | execTrade sig pr now =>
      simp only [stepOp]
      unfold executeTrade
      split_ifs with h1
      · exact hinv
      · cases sig.action with
        | BUY => exact buy_inv hinv
        | SELL => exact sell_inv hinv
        | HOLD => exact hinv

/-! ### Trailing-high coverage (C7, third part) -/

lemma trailStep_none {s : PaperState} {d : MarketData} {tok : String}
    (h : findPos s.positions tok = none) :
    findPos (trailStep s d).positions tok = none := by
  unfold trailStep
  cases hfind : findPos s.positions d.token with
  | none => exact h
  | some pos =>
      dsimp only
      split_ifs with hhigh
      · have htok : tok ≠ ({ pos with highestPrice := d.price } : Position).token := by
          intro hc
          rw [show ({ pos with highestPrice := d.price } : Position).token = pos.token
              from rfl, findPos_token hfind] at hc
          rw [hc, hfind] at h
          cases h
        rw [findPos_setPos_ne _ _ _ htok]
        exact h
      · exact h

lemma updateTrailingHighs_none :
    ∀ (md : List MarketData) (s : PaperState) (tok : String),
      findPos s.positions tok = none →
      findPos (updateTrailingHighs s md).positions tok = none := by
  intro md
  induction md with
  | nil => intro s tok h; exact h
  | cons d rest ih => intro s tok h; exact ih (trailStep s d) tok (trailStep_none h)

lemma trailStep_covers {s : PaperState} {d : MarketData} {p1 : Position}
    (hp1 : findPos (trailStep s d).positions d.token = some p1) :
    d.price ≤ p1.highestPrice := by
  unfold trailStep at hp1
  cases hfind : findPos s.positions d.token with
  | none =>
      rw [hfind] at hp1
      dsimp only at hp1
      rw [hfind] at hp1
      cases hp1
  | some pos =>
      rw [hfind] at hp1
      dsimp only at hp1
      split_ifs at hp1 with hhigh
      · have hq : findPos (setPos s.positions ({ pos with highestPrice := d.price }))
            d.token = some { pos with highestPrice := d.price } := by
          rw [← findPos_token hfind]
          exact findPos_setPos_self s.positions _
        obtain rfl := Option.some.inj (hq.symm.trans hp1)
        exact le_refl _
      · rw [hfind] at hp1
        obtain rfl := Option.some.inj (hfind.symm.trans (hfind.symm ▸ hp1))
        exact le_of_not_lt hhigh

lemma updateTrailingHighs_covers :
    ∀ (md : List MarketData) (s : PaperState) (d : MarketData), d ∈ md →
      ∀ p', findPos (updateTrailingHighs s md).positions d.token = some p' →
        d.price ≤ p'.highestPrice := by
  intro md
  induction md with
  | nil => intro s d hd; cases hd
  | cons d0 rest ih =>
      intro s d hd p' hp'
      rcases List.mem_cons.mp hd with rfl | hmem
      · cases hmid : findPos (trailStep s d).positions d.token with
        | none =>
            have := updateTrailingHighs_none rest (trailStep s d) d.token hmid
            rw [show updateTrailingHighs s (d :: rest) =
                updateTrailingHighs (trailStep s d) rest from rfl, this] at hp'
            cases hp'
        | some p1 =>
            have hd1 : d.price ≤ p1.highestPrice := trailStep_covers hmid
            have hm := updateTrailingHighs_mono rest (trailStep s d) hmid hp'
            exact le_trans hd1 hm.1
      · exact ih (trailStep s d0) d hmem p' hp'

/-! ### Sequence-level monotonicity (C7, first part) -/

lemma applyOps_mono (fee : ℚ) :
    ∀ (ops : List EngineOp) (s : PaperState) (tok : String) (p p' : Position),
      (∀ n, n ≤ ops.length →
        (findPos (applyOps fee s (ops.take n)).positions tok).isSome) →
      findPos s.positions tok = some p →
      findPos (applyOps fee s ops).positions tok = some p' →
      posMono p p' := by
  intro ops
  induction ops with
  | nil =>
      intro s tok p p' _ hp hp'
      obtain rfl := Option.some.inj (hp.symm.trans hp')
      exact posMono_refl p
  | cons op rest ih =>
      intro s tok p p' hopen hp hp'
      have h1 : (findPos (stepOp fee s op).positions tok).isSome := by
        have := hopen 1 (by simp)
        simpa [applyOps] using this
      obtain ⟨p1, hp1⟩ := Option.isSome_iff_exists.mp h1
      have hm1 := stepOp_mono fee s op hp hp1
      have hopen' : ∀ n, n ≤ rest.length →
          (findPos (applyOps fee (stepOp fee s op) (rest.take n)).positions tok).isSome := by
        intro n hn
        have := hopen (n + 1) (by simpa using hn)
        simpa [applyOps, List.take_succ_cons] using this
      exact posMono_trans hm1 (ih (stepOp fee s op) tok p1 p' hopen' hp1
        (by simpa [applyOps] using hp'))

/-- The state right after an initial buy of "TOK" at price 1 from the
fresh portfolio: one open position with `highestPrice = 1`. -/
def C7state : PaperState := (buy FEE_PERCENTAGE initPaperState "TOK" 1 0).2

/-- Counterexample to C7 as stated: a price of 2 observed for "TOK" only
through `updatePrices` (the "price updates" operation of the claim)
leaves the open position's `highestPrice` at 1 < 2 — `updatePrices` does
not track peaks, so `highestPrice ≥ max(initialBuyPrice, every price
observed)` fails when a price is observed only by a price update. -/
theorem C7_counterexample :
    (findPos (updatePrices C7state "TOK" 2).positions "TOK").map
      Position.highestPrice = some 1 ∧ (1 : ℚ) < 2 := by
  constructor
  · norm_num [C7state, updatePrices, buy, buyCommit, availableCash,
      getTotalEquity, initPaperState, findPos, setPos, setLastTime,
      MIN_CASH_RESERVE, MIN_TRADE_AMOUNT, BUY_PERCENT, MAX_POSITION_PERCENT,
      FEE_PERCENTAGE, INITIAL_BALANCE, min_def, List.find?]
  · norm_num

/-- C7 amended: (1) across any sequence of engine operations during which
the position stays open, `highestPrice` never decreases and
`initialBuyPrice` is never rewritten; (2) every operation preserves the
invariant `highestPrice ≥ initialBuyPrice`; (3) after an
`updateTrailingHighs` pass, `highestPrice` is at least every price that
pass carried for the token.  Prices seen only by `updatePrices` are not
covered — that is what the counterexample exhibits. -/
theorem C7_amended_highest_price (fee : ℚ) :
    (∀ (s : PaperState) (ops : List EngineOp) (tok : String) (p p' : Position),
      (∀ n, n ≤ ops.length →
        (findPos (applyOps fee s (ops.take n)).positions tok).isSome) →
      findPos s.positions tok = some p →
      findPos (applyOps fee s ops).positions tok = some p' →
      p.highestPrice ≤ p'.highestPrice ∧ p'.initialBuyPrice = p.initialBuyPrice) ∧
    (∀ (s : PaperState) (op : EngineOp), highestInv s →
      highestInv (stepOp fee s op)) ∧
    (∀ (s : PaperState) (md : List MarketData) (d : MarketData), d ∈ md →
      ∀ p', findPos (updateTrailingHighs s md).positions d.token = some p' →
        d.price ≤ p'.highestPrice) := by
  refine ⟨?_, ?_, ?_⟩
  · intro s ops tok p p' hopen hp hp'
    exact applyOps_mono fee ops s tok p p' hopen hp hp'
  · intro s op hinv
    exact stepOp_inv fee s op hinv
  · intro s md d hd p' hp'
    exact updateTrailingHighs_covers md s d hd p' hp'

/-- The position of `C7state` after its peak is raised to 3. -/
def C7wpos : Position :=
  { token := "TOK", amount := 2997/2500, avgBuyPrice := 1, currentPrice := 1,
    pnl := 0, pnlPercentage := 0, dcaLevel := 0, initialBuyPrice := 1,
    highestPrice := 3, totalCost := 2997/2500 }

/-- Witness for the amended C7: an `updateTrailingHighs` pass carrying
price 3 for "TOK" raises the peak of the open position to 3 ≥ 3. -/
theorem C7_witness :
    findPos (updateTrailingHighs C7state
        [{ token := "TOK", price := 3, change24h := 0, timestamp := 0 }]).positions
      "TOK" = some C7wpos ∧
    (3 : ℚ) ≤ C7wpos.highestPrice := by
  have hfind : findPos (updateTrailingHighs C7state
      [{ token := "TOK", price := 3, change24h := 0, timestamp := 0 }]).positions
      "TOK" = some C7wpos := by
    norm_num [C7state, C7wpos, updateTrailingHighs, trailStep, buy, buyCommit,
      availableCash, getTotalEquity, initPaperState, findPos, setPos,
      setLastTime, MIN_CASH_RESERVE, MIN_TRADE_AMOUNT, BUY_PERCENT,
      MAX_POSITION_PERCENT, FEE_PERCENTAGE, INITIAL_BALANCE, min_def,
      List.find?]
  exact ⟨hfind,
    (C7_amended_highest_price FEE_PERCENTAGE).2.2 C7state _ _
      (List.mem_cons_self _ _) _ hfind⟩

end TradingBackend
